import Mathlib

set_option maxRecDepth 8192

/-
  Verification development for the libcsvcpp repository: a C++ wrapper
  (src/csvcpp) around a streaming CSV parsing/writing engine, plus its test
  suite (src/tests/test_csv.cpp).

  The engine itself (csv.c / csv.h of libcsv) is not part of src/: only the
  wrapper (CsvParser.cpp/.hpp), the examples and the test fixtures are.  The
  parser state machine and the writer below are therefore modelled from the
  spec (sections 3, 4.1, 4.2, 7 of spec.md).  Where the spec's transition
  prose is self-contradictory, the model follows the concrete expected-event
  fixtures of src/tests/test_csv.cpp (which are code of this repository and
  agree with spec section 8): leading whitespace in the start-of-field state
  is skipped in both strict and lenient modes, a terminator byte seen before
  any field of the current row has begun emits no row-event unless
  ReportAllNewlines is set, and the quote-seen-in-quoted-field state is
  treated by finish as a properly closed field.

  Bytes are modelled as Nat (the C engine reads unsigned char), event
  callbacks as an accumulated event list, the CsvError exception of the
  wrapper as an error value carrying the consumed-byte count.
-/

namespace CsvSpec

/-- Option flag values, matching enum class CsvParser::Option in
src/csvcpp/include/CsvParser.hpp: Strict = 1, RepAllNl = 2, StrictFini = 4,
AppendNull = 8, EmptyIsNull = 16. -/
inductive COpt where
  | strict
  | repAllNl
  | strictFini
  | appendNull
  | emptyIsNull
deriving DecidableEq, Repr

/-- Numeric value of an option, as in the static_cast<unsigned char> of the
wrapper.  All values are below 32, so the bitwise OR of any collection stays
below 32 and the unsigned char arithmetic never wraps. -/
def COpt.val : COpt → Nat
  | .strict => 1
  | .repAllNl => 2
  | .strictFini => 4
  | .appendNull => 8
  | .emptyIsNull => 16

/-- CsvParser::convert_options_to_c_flags (CsvParser.hpp lines 281-288):
folds bitwise OR of the option values over the iterator range, starting
from 0. -/
def convert_options_to_c_flags (l : List COpt) : Nat :=
  l.foldl (fun acc o => acc ||| o.val) 0

/-- Modelled from the spec: the default space classifier of the engine
(csv.c is absent from src/); a byte is a space when it is the space (0x20)
or tab (0x09) character. -/
def defIsSpace (c : Nat) : Bool := c == 32 || c == 9

/-- Modelled from the spec: the default terminator classifier of the engine;
a byte is a row terminator when it is CR (0x0D) or LF (0x0A). -/
def defIsTerm (c : Nat) : Bool := c == 13 || c == 10

/-- Modelled from the spec: the engine configuration (ParserConfig):
delimiter byte, quote byte, option flag byte, and the pluggable space and
terminator classifiers. -/
structure Config where
  delim : Nat
  quote : Nat
  options : Nat
  isSpaceFn : Nat → Bool
  isTermFn : Nat → Bool

/-- Bit 0 of the option byte: Strict. -/
def Config.strictOpt (cfg : Config) : Bool := cfg.options &&& 1 != 0

/-- Bit 1 of the option byte: ReportAllNewlines. -/
def Config.repAllNlOpt (cfg : Config) : Bool := cfg.options &&& 2 != 0

/-- Bit 2 of the option byte: StrictFinish. -/
def Config.strictFiniOpt (cfg : Config) : Bool := cfg.options &&& 4 != 0

/-- Bit 4 of the option byte: EmptyIsNull. -/
def Config.emptyIsNullOpt (cfg : Config) : Bool := cfg.options &&& 16 != 0

/-- The configuration produced by the default CsvParser constructor followed
by set_options with the given flag byte: delimiter comma (0x2C), quote
double-quote (0x22), default classifiers. -/
def defaultConfig (opts : Nat) : Config :=
  ⟨44, 34, opts, defIsSpace, defIsTerm⟩

/-- Modelled from the spec: the lexical modes of the parser state machine.
rowNotBegun: no field of the current row has begun (the spec's Start at row
start); fieldNotBegun: a delimiter was seen, the next field has not begun
(Start mid-row); fieldBegun: inside a field, quoted or not (UnquotedField /
QuotedField according to the quoted flag); fieldMightHaveEnded: a quote was
seen inside a quoted field and the next byte decides escape versus close
(QuoteSeenInQuotedField / AfterClosingQuote). -/
inductive PState where
  | rowNotBegun
  | fieldNotBegun
  | fieldBegun
  | fieldMightHaveEnded
deriving DecidableEq, Repr

/-- Error kinds, matching CsvError::ErrorType of the wrapper (Eparse = 1,
Enomem = 2, Etoobig = 3, Einvalid = 4).  Only Eparse is reachable in the
model, which does not model allocation failure. -/
inductive ErrKind where
  | eparse
  | enomem
  | etoobig
  | einvalid
deriving DecidableEq, Repr

/-- Modelled from the spec: the per-parser mutable state (ParserState):
lexical mode, quoted flag for the current field, count of trailing
whitespace bytes currently accumulated, the growable field buffer, and the
sticky error status. -/
structure PSt where
  pstate : PState
  quoted : Bool
  spaces : Nat
  entry : List Nat
  status : Option ErrKind
deriving DecidableEq, Repr

/-- The state of a freshly initialized parser. -/
def initSt : PSt := ⟨.rowNotBegun, false, 0, [], none⟩

/-- A field event (payload of cb1: the field bytes, or none when
EmptyIsNull marks the field as null) or a row event (payload of cb2: the
terminator byte, or -1 for end of stream). -/
inductive Ev where
  | field (data : Option (List Nat))
  | row (term : Int)
deriving DecidableEq, Repr

/-- Modelled from the spec: submitting the completed field.  For an
unquoted field the accumulated trailing whitespace is dropped; a field that
is unquoted and empty is delivered null under EmptyIsNull, and with a
(possibly empty) byte buffer otherwise.  The per-field state is reset. -/
def submitFieldEv (cfg : Config) (s : PSt) : PSt × Ev :=
  let e := if s.quoted then s.entry else s.entry.take (s.entry.length - s.spaces)
  let d : Option (List Nat) :=
    if cfg.emptyIsNullOpt && !s.quoted && e.isEmpty then none else some e
  ({ s with pstate := .fieldNotBegun, quoted := false, spaces := 0, entry := [] }, .field d)

/-- Modelled from the spec: the state reset performed when a row event is
submitted. -/
def submitRowSt (s : PSt) : PSt :=
  { s with pstate := .rowNotBegun, quoted := false, spaces := 0, entry := [] }

/-- Result of processing one byte: successor state, events emitted, and the
error raised at this byte, if any. -/
structure StepOut where
  st : PSt
  evs : List Ev
  err : Option ErrKind
deriving DecidableEq, Repr

/-- Modelled from the spec: one transition of the parser state machine on
byte c (spec section 4.2, adjusted to the fixtures of
src/tests/test_csv.cpp where the prose conflicts with them).  Strict
violations set the sticky status, reset the lexical mode and report an
error; the faulting byte is not consumed. -/
def step (cfg : Config) (s : PSt) (c : Nat) : StepOut :=
  match s.pstate with
  | .rowNotBegun | .fieldNotBegun =>
    if cfg.isSpaceFn c && c != cfg.delim then ⟨s, [], none⟩
    else if c == cfg.delim then
      let p := submitFieldEv cfg s
      ⟨p.1, [p.2], none⟩
    else if cfg.isTermFn c then
      if s.pstate == .fieldNotBegun then
        let p := submitFieldEv cfg s
        ⟨submitRowSt p.1, [p.2, .row (Int.ofNat c)], none⟩
      else if cfg.repAllNlOpt then ⟨submitRowSt s, [.row (Int.ofNat c)], none⟩
      else ⟨s, [], none⟩
    else if c == cfg.quote then
      ⟨{ s with pstate := .fieldBegun, quoted := true }, [], none⟩
    else
      ⟨{ s with pstate := .fieldBegun, quoted := false, entry := s.entry ++ [c] }, [], none⟩
  | .fieldBegun =>
    if c == cfg.quote then
      if s.quoted then
        ⟨{ s with entry := s.entry ++ [c], pstate := .fieldMightHaveEnded }, [], none⟩
      else if cfg.strictOpt then
        ⟨{ s with quoted := false, pstate := .rowNotBegun, status := some .eparse }, [],
          some .eparse⟩
      else ⟨{ s with entry := s.entry ++ [c], spaces := 0 }, [], none⟩
    else if c == cfg.delim then
      if s.quoted then ⟨{ s with entry := s.entry ++ [c] }, [], none⟩
      else
        let p := submitFieldEv cfg s
        ⟨p.1, [p.2], none⟩
    else if cfg.isTermFn c then
      if s.quoted then ⟨{ s with entry := s.entry ++ [c] }, [], none⟩
      else
        let p := submitFieldEv cfg s
        ⟨submitRowSt p.1, [p.2, .row (Int.ofNat c)], none⟩
    else if !s.quoted && cfg.isSpaceFn c then
      ⟨{ s with entry := s.entry ++ [c], spaces := s.spaces + 1 }, [], none⟩
    else ⟨{ s with entry := s.entry ++ [c], spaces := 0 }, [], none⟩
  | .fieldMightHaveEnded =>
    if c == cfg.delim then
      let s0 := { s with entry := s.entry.take (s.entry.length - (s.spaces + 1)) }
      let p := submitFieldEv cfg s0
      ⟨p.1, [p.2], none⟩
    else if cfg.isTermFn c then
      let s0 := { s with entry := s.entry.take (s.entry.length - (s.spaces + 1)) }
      let p := submitFieldEv cfg s0
      ⟨submitRowSt p.1, [p.2, .row (Int.ofNat c)], none⟩
    else if cfg.isSpaceFn c then
      ⟨{ s with entry := s.entry ++ [c], spaces := s.spaces + 1 }, [], none⟩
    else if c == cfg.quote then
      if s.spaces == 0 then ⟨{ s with pstate := .fieldBegun }, [], none⟩
      else if cfg.strictOpt then
        ⟨{ s with quoted := false, pstate := .rowNotBegun, status := some .eparse }, [],
          some .eparse⟩
      else ⟨{ s with entry := s.entry ++ [c], spaces := 0 }, [], none⟩
    else if cfg.strictOpt then
      ⟨{ s with quoted := false, pstate := .rowNotBegun, status := some .eparse }, [],
        some .eparse⟩
    else ⟨{ s with entry := s.entry ++ [c], spaces := 0, pstate := .fieldBegun }, [], none⟩

/-- Result of one parse call: final state, events emitted in order,
bytes consumed (the C return value, which the wrapper stores in
CsvError::bytes_parsed when it throws), and the error raised within the
call, if any. -/
structure RunOut where
  st : PSt
  evs : List Ev
  consumed : Nat
  err : Option ErrKind
deriving DecidableEq, Repr

/-- Modelled from the spec: the byte loop of one parse call.  Bytes are
processed in order; on an error the call stops and the consumed count is
the number of bytes before the faulting byte. -/
def processBytes (cfg : Config) (s : PSt) : List Nat → RunOut
  | [] => ⟨s, [], 0, none⟩
  | c :: rest =>
    let o := step cfg s c
    match o.err with
    | some e => ⟨o.st, o.evs, 0, some e⟩
    | none =>
      let r := processBytes cfg o.st rest
      ⟨r.st, o.evs ++ r.evs, r.consumed + 1, r.err⟩

/-- CsvParser::parse (CsvParser.cpp lines 120-132): runs the engine on the
buffer; the wrapper throws a CsvError carrying the consumed count exactly
when the engine's sticky status is set after the call. -/
def runParse (cfg : Config) (s : PSt) (b : List Nat) : RunOut :=
  processBytes cfg s b

/-- One parse call on a fresh parser. -/
def runSingle (cfg : Config) (b : List Nat) : RunOut :=
  processBytes cfg initSt b

/-- Feeding a list of chunks to one parser in order, stopping at the first
error (as the caller must, since the wrapper throws), accumulating events
and the total consumed-byte count (the absolute fault offset). -/
def runChunks (cfg : Config) (s : PSt) : List (List Nat) → RunOut
  | [] => ⟨s, [], 0, none⟩
  | ch :: rest =>
    let r := processBytes cfg s ch
    match r.err with
    | some e => ⟨r.st, r.evs, r.consumed, some e⟩
    | none =>
      let r2 := runChunks cfg r.st rest
      ⟨r2.st, r.evs ++ r2.evs, r.consumed + r2.consumed, r2.err⟩

/-- Result of finish: state after the call, events, and the finish error if
any (the wrapper CsvParser::finish throws on a nonzero engine result). -/
structure FiniOut where
  st : PSt
  evs : List Ev
  err : Option ErrKind
deriving DecidableEq, Repr

/-- Modelled from the spec: the finish/flush operation (csv_fini is absent
from src/).  A quoted field still open in fieldBegun fails when
StrictFinish is set; the quote-pending state fieldMightHaveEnded is treated
as a properly closed field (its pending quote and trailing whitespace are
dropped), matching the fixtures of test05 run with Strict and StrictFinish;
otherwise any pending field is emitted followed by a row event with
terminator -1, and the state is reset for reuse. -/
def fini (cfg : Config) (s : PSt) : FiniOut :=
  if s.pstate == .fieldBegun && s.quoted && cfg.strictFiniOpt then
    ⟨{ s with status := some .eparse }, [], some .eparse⟩
  else
    match s.pstate with
    | .fieldMightHaveEnded =>
      let s0 := { s with entry := s.entry.take (s.entry.length - (s.spaces + 1)) }
      let p := submitFieldEv cfg s0
      ⟨submitRowSt p.1, [p.2, .row (-1)], none⟩
    | .fieldNotBegun =>
      let p := submitFieldEv cfg s
      ⟨submitRowSt p.1, [p.2, .row (-1)], none⟩
    | .fieldBegun =>
      let p := submitFieldEv cfg s
      ⟨submitRowSt p.1, [p.2, .row (-1)], none⟩
    | .rowNotBegun => ⟨s, [], none⟩

/-- One parse call on a fresh parser followed by finish when the parse
succeeded: the full event sequence of a document fed as a single chunk,
and the error, if any. -/
def runDoc (cfg : Config) (b : List Nat) : List Ev × Option ErrKind :=
  let r := runSingle cfg b
  match r.err with
  | some e => (r.evs, some e)
  | none =>
    let f := fini cfg r.st
    (r.evs ++ f.evs, f.err)

/-- A byte list written conditionally: the C writer writes the byte only
when the running character count is still below the destination
capacity. -/
def writeChar (cap chars c : Nat) : List Nat :=
  if chars < cap then [c] else []

/-- Modelled from the spec: the body loop of csv_write2 (csv.c is absent
from src/): each source byte equal to the quote character is preceded by a
doubled quote, each byte is written only while capacity remains, the
closing quote is appended, and the running count of required bytes is
returned. -/
def writeBody (cap q : Nat) : List Nat → Nat → List Nat × Nat
  | [], chars => (writeChar cap chars q, chars + 1)
  | c :: rest, chars =>
    if c == q then
      let w := writeChar cap chars q ++ writeChar cap (chars + 1) c
      let r := writeBody cap q rest (chars + 2)
      (w ++ r.1, r.2)
    else
      let r := writeBody cap q rest (chars + 1)
      (writeChar cap chars c ++ r.1, r.2)

/-- CsvParser::write2 via csv_write2: opening quote, escaped body, closing
quote; returns the pair of bytes actually written into the destination
(empty when the capacity is zero, which is also how a null destination is
treated) and the required size, which is always returned in full. -/
def csv_write2 (cap : Nat) (src : List Nat) (q : Nat) : List Nat × Nat :=
  let r := writeBody cap q src 1
  (writeChar cap 0 q ++ r.1, r.2)

/-- CsvParser::write via csv_write: csv_write2 specialized to the
double-quote character 0x22. -/
def csv_write (cap : Nat) (src : List Nat) : List Nat × Nat :=
  csv_write2 cap src 34

/-- The spec's description of the escaped body: every occurrence of the
quote character is doubled, other bytes are copied. -/
def escapeBody (q : Nat) : List Nat → List Nat
  | [] => []
  | c :: rest => (if c == q then [q, c] else [c]) ++ escapeBody q rest

/-- The spec's description of the full writer output: the source wrapped in
one quote character at each end with every internal quote doubled. -/
def escaped (q : Nat) (src : List Nat) : List Nat :=
  q :: (escapeBody q src ++ [q])

/-- Processing an appended buffer when the first part errors: the call
stopped at the fault, so the extra bytes change nothing. -/
theorem processBytes_append_err (cfg : Config) (s : PSt) (xs ys : List Nat)
    (h : (processBytes cfg s xs).err.isSome) :
    processBytes cfg s (xs ++ ys) = processBytes cfg s xs := by
  induction xs generalizing s with
  | nil => simp [processBytes] at h
  | cons c rest ih =>
    simp only [List.cons_append, processBytes, List.append_eq] at h ⊢
    cases he : (step cfg s c).err with
    | some e => simp [he]
    | none =>
      simp only [he] at h ⊢
      rw [ih (step cfg s c).st h]

/-- Processing an appended buffer when the first part succeeds: the second
part continues from the resulting state, events concatenate and consumed
counts add. -/
theorem processBytes_append_ok (cfg : Config) (s : PSt) (xs ys : List Nat)
    (h : (processBytes cfg s xs).err = none) :
    processBytes cfg s (xs ++ ys) =
      ⟨(processBytes cfg (processBytes cfg s xs).st ys).st,
       (processBytes cfg s xs).evs ++ (processBytes cfg (processBytes cfg s xs).st ys).evs,
       (processBytes cfg s xs).consumed +
         (processBytes cfg (processBytes cfg s xs).st ys).consumed,
       (processBytes cfg (processBytes cfg s xs).st ys).err⟩ := by
  induction xs generalizing s with
  | nil => simp [processBytes]
  | cons c rest ih =>
    simp only [List.cons_append, processBytes, List.append_eq] at h ⊢
    cases he : (step cfg s c).err with
    | some e => simp [he] at h
    | none =>
      simp only [he] at h ⊢
      rw [ih (step cfg s c).st h]
      simp [List.append_assoc]
      omega

/-- Feeding chunks one call at a time is the same as feeding their
concatenation in one call: same final state, same events, same total
consumed count, same error. -/
theorem runChunks_flatten (cfg : Config) (s : PSt) (chunks : List (List Nat)) :
    runChunks cfg s chunks = processBytes cfg s chunks.flatten := by
  induction chunks generalizing s with
  | nil => simp [runChunks, processBytes]
  | cons ch rest ih =>
    simp only [runChunks, List.flatten_cons]
    cases h : (processBytes cfg s ch).err with
    | some e =>
      rw [processBytes_append_err cfg s ch rest.flatten (by simp [h])]
      simp only [h]
      rw [← h]
    | none =>
      rw [processBytes_append_ok cfg s ch rest.flatten h]
      simp only [h]
      rw [ih]

/-- C1.  Chunk-boundary invariance: for every byte buffer, every parser
configuration (any delimiter, quote, option byte and classifiers), every
start state and every partition of the buffer into contiguous chunks,
feeding the chunks in order via parse and then calling finish emits exactly
the same events (same field data and row terminator values), consumes the
same total number of bytes (so any error is raised at the same absolute
byte offset), raises the same error, and reaches the same final state as
feeding the whole buffer in one parse call followed by finish. -/
theorem chunk_boundary_invariance (cfg : Config) (s : PSt) (chunks : List (List Nat)) :
    runChunks cfg s chunks = processBytes cfg s chunks.flatten ∧
    fini cfg (runChunks cfg s chunks).st =
      fini cfg (processBytes cfg s chunks.flatten).st := by
  refine ⟨runChunks_flatten cfg s chunks, ?_⟩
  rw [runChunks_flatten cfg s chunks]

/-- A non-faulting transition leaves the sticky status untouched. -/
theorem step_status_ok (cfg : Config) (s : PSt) (c : Nat)
    (h : (step cfg s c).err = none) : (step cfg s c).st.status = s.status := by
  rcases s with ⟨ps, q, sp, en, st⟩
  rcases ps <;>
    simp only [step] at h ⊢ <;>
    split_ifs at h ⊢ <;>
    simp_all [submitFieldEv, submitRowSt]

/-- A faulting transition latches the sticky status to the reported
error. -/
theorem step_status_err (cfg : Config) (s : PSt) (c : Nat) (e : ErrKind)
    (h : (step cfg s c).err = some e) : (step cfg s c).st.status = some e := by
  rcases s with ⟨ps, q, sp, en, st⟩
  rcases ps <;>
    simp only [step] at h ⊢ <;>
    split_ifs at h ⊢ <;>
    simp_all [submitFieldEv, submitRowSt]

/-- After a parse call entered with a clear status, the sticky status
equals the error of the call: the wrapper throw condition (csv_error after
csv_parse) coincides with a fault within the call. -/
theorem processBytes_status (cfg : Config) (s : PSt) (b : List Nat)
    (h : s.status = none) :
    (processBytes cfg s b).st.status = (processBytes cfg s b).err := by
  induction b generalizing s with
  | nil => simpa [processBytes] using h
  | cons c rest ih =>
    simp only [processBytes]
    cases he : (step cfg s c).err with
    | some e => simpa using step_status_err cfg s c e he
    | none =>
      simp only
      exact ih (step cfg s c).st ((step_status_ok cfg s c he).trans h)

/-- A parse call that raises no error consumes the whole input buffer. -/
theorem processBytes_ok_consumed (cfg : Config) (s : PSt) (b : List Nat)
    (h : (processBytes cfg s b).err = none) :
    (processBytes cfg s b).consumed = b.length := by
  induction b generalizing s with
  | nil => simp [processBytes]
  | cons c rest ih =>
    simp only [processBytes] at h ⊢
    cases he : (step cfg s c).err with
    | some e => simp [he] at h
    | none =>
      simp only [he] at h ⊢
      rw [ih (step cfg s c).st h]
      simp

/-- A parse call that raises an error stops at the faulting byte: the
consumed count is below the buffer length, the prefix of that length
parses without error, and extending it by the single faulting byte
reproduces the whole faulting call. -/
theorem processBytes_err_take (cfg : Config) (s : PSt) (b : List Nat) (e : ErrKind)
    (h : (processBytes cfg s b).err = some e) :
    (processBytes cfg s b).consumed < b.length ∧
    (processBytes cfg s (b.take (processBytes cfg s b).consumed)).err = none ∧
    processBytes cfg s (b.take ((processBytes cfg s b).consumed + 1)) =
      processBytes cfg s b := by
  induction b generalizing s with
  | nil => simp [processBytes] at h
  | cons c rest ih =>
    simp only [processBytes] at h ⊢
    cases he : (step cfg s c).err with
    | some e2 =>
      simp only [he] at h ⊢
      refine ⟨by simp, by simp [processBytes], ?_⟩
      simp [processBytes, he]
    | none =>
      simp only [he] at h ⊢
      obtain ⟨h1, h2, h3⟩ := ih (step cfg s c).st h
      refine ⟨by simpa using h1, ?_, ?_⟩
      · simpa [List.take_succ_cons, processBytes, he] using h2
      · rw [h3]

/-- C4.  Byte-accounting: a parse call entered with a clear sticky status
either raises no error, in which case the wrapper does not throw (status
stays clear) and the returned consumed count equals the input length; or it
raises an error, in which case the wrapper throws a CsvError whose
bytes_parsed field (the consumed count) is exactly the number of bytes
consumed before the fault within the call: the prefix of that length parses
cleanly and the next byte faults.  Moreover, for any split of the buffer
into prior calls plus the rest, the total of the consumed counts equals the
consumed count of the single whole-buffer call, so summing prior calls'
counts plus bytes_parsed yields the absolute document offset of the
fault. -/
theorem byte_accounting (cfg : Config) (s : PSt) (b : List Nat)
    (h : s.status = none) :
    ((runParse cfg s b).err = none →
       (runParse cfg s b).st.status = none ∧
       (runParse cfg s b).consumed = b.length) ∧
    (∀ e, (runParse cfg s b).err = some e →
       (runParse cfg s b).st.status = some e ∧
       (runParse cfg s b).consumed < b.length ∧
       (runParse cfg s (b.take (runParse cfg s b).consumed)).err = none ∧
       runParse cfg s (b.take ((runParse cfg s b).consumed + 1)) = runParse cfg s b) ∧
    (∀ chunks : List (List Nat), chunks.flatten = b →
       (runChunks cfg s chunks).consumed = (runParse cfg s b).consumed ∧
       (runChunks cfg s chunks).err = (runParse cfg s b).err) := by
  refine ⟨?_, ?_, ?_⟩
  · intro he
    exact ⟨(processBytes_status cfg s b h).trans he,
           processBytes_ok_consumed cfg s b he⟩
  · intro e he
    obtain ⟨h1, h2, h3⟩ := processBytes_err_take cfg s b e he
    exact ⟨(processBytes_status cfg s b h).trans he, h1, h2, h3⟩
  · intro chunks hc
    rw [← hc, runParse, runChunks_flatten]
    exact ⟨rfl, rfl⟩

/-- Witness for byte_accounting: with Strict set, the two-byte input of the
letter a followed by a quote faults at absolute offset 1 (the quote inside
an unquoted field): the call reports Eparse with 1 byte consumed, and
feeding the same buffer as two one-byte chunks yields the same offset. -/
theorem byte_accounting_witness :
    (runParse (defaultConfig 1) initSt [97, 34]).err = some .eparse ∧
    (runParse (defaultConfig 1) initSt [97, 34]).st.status = some .eparse ∧
    (runParse (defaultConfig 1) initSt [97, 34]).consumed < 2 ∧
    (runChunks (defaultConfig 1) initSt [[97], [34]]).consumed =
      (runParse (defaultConfig 1) initSt [97, 34]).consumed := by
  have hb := byte_accounting (defaultConfig 1) initSt [97, 34] rfl
  refine ⟨by decide, (hb.2.1 .eparse (by decide)).1,
          (hb.2.1 .eparse (by decide)).2.1,
          (hb.2.2 [[97], [34]] (by decide)).1⟩

/-- The escaped body grows by one byte for every source byte equal to the
quote character. -/
theorem escapeBody_length (q : Nat) (src : List Nat) :
    (escapeBody q src).length = src.length + src.count q := by
  induction src with
  | nil => simp [escapeBody]
  | cons c rest ih =>
    by_cases hc : c = q
    · subst hc
      simp [escapeBody, ih, List.count_cons]
      omega
    · simp [escapeBody, hc, ih, List.count_cons]
      omega

/-- The body loop of the writer produces the window of the escaped body
(followed by the closing quote) that still fits in the remaining capacity,
and counts every required byte. -/
theorem writeBody_spec (q : Nat) (src : List Nat) : ∀ cap chars : Nat,
    writeBody cap q src chars =
      ((escapeBody q src ++ [q]).take (cap - chars),
       chars + (escapeBody q src).length + 1) := by
  induction src with
  | nil =>
    intro cap chars
    simp only [writeBody, escapeBody, writeChar, List.nil_append]
    by_cases h : chars < cap
    · have hc : cap - chars = (cap - chars - 1) + 1 := by omega
      rw [hc]
      simp [h, List.take_succ_cons]
    · have hc : cap - chars = 0 := by omega
      simp [h, hc]
  | cons c rest ih =>
    intro cap chars
    by_cases hc : c = q
    · subst hc
      simp only [writeBody, beq_self_eq_true, if_true, escapeBody, ih, writeChar]
      by_cases h1 : chars < cap
      · by_cases h2 : chars + 1 < cap
        · have e1 : cap - chars = (cap - (chars + 2)) + 2 := by omega
          have e2 : cap - (chars + 1) = (cap - (chars + 2)) + 1 := by omega
          simp [h1, h2, e1, e2, List.take_succ_cons]
          omega
        · have e1 : cap - chars = 1 := by omega
          have e2 : cap - (chars + 2) = 0 := by omega
          simp [h1, h2, e1, e2]
          omega
      · have h2 : ¬ chars + 1 < cap := by omega
        have e1 : cap - chars = 0 := by omega
        have e2 : cap - (chars + 2) = 0 := by omega
        simp [h1, h2, e1, e2]
        omega
    · have hbeq : (c == q) = false := by simp [hc]
      simp only [writeBody, hbeq, if_false, Bool.false_eq_true, escapeBody, ih, writeChar]
      by_cases h1 : chars < cap
      · have e1 : cap - chars = (cap - (chars + 1)) + 1 := by omega
        simp [h1, e1, List.take_succ_cons]
        omega
      · have e1 : cap - chars = 0 := by omega
        have e2 : cap - (chars + 1) = 0 := by omega
        simp [h1, e1, e2]
        omega

/-- The writer returns the capacity-limited window of the full escaped
output together with the always-complete required size. -/
theorem csv_write2_take (cap : Nat) (src : List Nat) (q : Nat) :
    csv_write2 cap src q = ((escaped q src).take cap, (escaped q src).length) := by
  cases cap with
  | zero =>
    simp [csv_write2, writeBody_spec, escaped, writeChar, escapeBody_length]
    omega
  | succ n =>
    simp [csv_write2, writeBody_spec, escaped, writeChar, escapeBody_length,
      List.take_succ_cons]
    omega

/-- C3.  Writer contract: for every source buffer, every quote character
and every capacity, csv_write2 always returns the required size
n + 2 + k (n the source length, k the number of quote occurrences); the
spec-level escaped form (source wrapped in one quote at each end with every
internal quote doubled) has exactly that length; with sufficient capacity
the written bytes are exactly that escaped form; with capacity zero (which
is also how a null destination is treated) nothing is written while the
same required size is returned; and csv_write coincides with csv_write2
specialized to the double-quote character. -/
theorem writer_contract (src : List Nat) (q cap : Nat) :
    (csv_write2 cap src q).2 = src.length + 2 + src.count q ∧
    (escaped q src).length = src.length + 2 + src.count q ∧
    (src.length + 2 + src.count q ≤ cap → (csv_write2 cap src q).1 = escaped q src) ∧
    (csv_write2 0 src q).1 = [] ∧
    (csv_write2 0 src q).2 = src.length + 2 + src.count q ∧
    csv_write cap src = csv_write2 cap src 34 := by
  have hlen : (escaped q src).length = src.length + 2 + src.count q := by
    simp [escaped, escapeBody_length]
    omega
  refine ⟨?_, hlen, ?_, ?_, ?_, rfl⟩
  · rw [csv_write2_take, hlen]
  · intro hc
    rw [csv_write2_take]
    exact List.take_of_length_le (by omega)
  · rw [csv_write2_take]
    simp
  · rw [csv_write2_take, hlen]

/-- Witness for writer_contract: escaping the three-byte source containing
a quote (bytes 97, 34, 98) with capacity 7 requires 6 bytes and writes the
source quoted with the internal quote doubled. -/
theorem writer_contract_witness :
    (3 : Nat) + 2 + [97, 34, 98].count 34 ≤ 7 ∧
    (csv_write2 7 [97, 34, 98] 34).1 = [34, 97, 34, 34, 98, 34] ∧
    (csv_write2 7 [97, 34, 98] 34).2 = 6 := by
  refine ⟨by decide, ?_, ?_⟩
  · rw [(writer_contract [97, 34, 98] 34 7).2.2.1 (by decide)]
    decide
  · rw [(writer_contract [97, 34, 98] 34 7).1]
    decide

/-- Inside a quoted field with no pending trailing-space count, any byte
other than the quote character is stored verbatim: the delimiter, the
terminators and spaces are all data inside quotes. -/
theorem step_quoted_data (e : List Nat) (st : Option ErrKind) (c : Nat) (hc : c ≠ 34) :
    step (defaultConfig 0) ⟨.fieldBegun, true, 0, e, st⟩ c =
      ⟨⟨.fieldBegun, true, 0, e ++ [c], st⟩, [], none⟩ := by
  have hbeq : (c == 34) = false := by simp [hc]
  simp only [step, defaultConfig, hbeq, Bool.false_eq_true, if_false]
  split_ifs <;> simp_all

/-- Inside a quoted field, a quote byte is stored and moves to the
quote-pending state. -/
theorem step_quoted_quote (e : List Nat) (st : Option ErrKind) :
    step (defaultConfig 0) ⟨.fieldBegun, true, 0, e, st⟩ 34 =
      ⟨⟨.fieldMightHaveEnded, true, 0, e ++ [34], st⟩, [], none⟩ := rfl

/-- In the quote-pending state with no trailing spaces, a second quote is
the doubled-quote escape: the field continues with the first quote already
stored. -/
theorem step_fmhe_quote (e : List Nat) (st : Option ErrKind) :
    step (defaultConfig 0) ⟨.fieldMightHaveEnded, true, 0, e, st⟩ 34 =
      ⟨⟨.fieldBegun, true, 0, e, st⟩, [], none⟩ := rfl

/-- Consuming the escaped body of a source buffer from inside a quoted
field appends exactly the source bytes to the field buffer, emits no
events and raises no error. -/
theorem consume_escaped_body (src : List Nat) : ∀ e : List Nat,
    processBytes (defaultConfig 0) ⟨.fieldBegun, true, 0, e, none⟩ (escapeBody 34 src) =
      ⟨⟨.fieldBegun, true, 0, e ++ src, none⟩, [], (escapeBody 34 src).length, none⟩ := by
  induction src with
  | nil => intro e; simp [escapeBody, processBytes]
  | cons c rest ih =>
    intro e
    by_cases hc : c = 34
    · subst hc
      simp only [escapeBody, beq_self_eq_true, if_true, List.cons_append, List.nil_append]
      simp only [processBytes, step_quoted_quote, step_fmhe_quote, ih]
      simp [List.append_assoc]
    · have hbeq : (c == 34) = false := by simp [hc]
      simp only [escapeBody, hbeq, Bool.false_eq_true, if_false, List.cons_append,
        List.nil_append]
      simp only [processBytes, step_quoted_data e none c hc, ih]
      simp [List.append_assoc]

/-- C2.  Round-trip: escaping any byte sequence with write (sufficient
destination capacity, default double-quote) and feeding the written bytes
to a fresh parser with the default configuration, followed by finish,
yields exactly one field event whose data equals the source, followed by
one row event with the end-of-stream terminator -1, and no error.  This
holds in particular for sources containing the quote character, the
delimiter, terminators and spaces. -/
theorem write_parse_round_trip (src : List Nat) :
    runDoc (defaultConfig 0)
        (csv_write (src.length + 2 + src.count 34) src).1 =
      ([.field (some src), .row (-1)], none) := by
  have hout : (csv_write (src.length + 2 + src.count 34) src).1 = escaped 34 src := by
    rw [csv_write, csv_write2_take]
    refine List.take_of_length_le ?_
    simp [escaped, escapeBody_length]
    omega
  rw [hout]
  have hfirst : step (defaultConfig 0) initSt 34 =
      ⟨⟨.fieldBegun, true, 0, [], none⟩, [], none⟩ := rfl
  have hrun : runSingle (defaultConfig 0) (escaped 34 src) =
      ⟨⟨.fieldMightHaveEnded, true, 0, src ++ [34], none⟩, [],
        (escaped 34 src).length, none⟩ := by
    have hbody := processBytes_append_ok (defaultConfig 0)
      ⟨.fieldBegun, true, 0, [], none⟩ (escapeBody 34 src) [34]
      (by rw [consume_escaped_body])
    simp only [runSingle, escaped, processBytes, hfirst]
    rw [hbody]
    simp only [consume_escaped_body, List.nil_append]
    simp [processBytes, step_quoted_quote, escapeBody_length, escaped, List.length_append]
  simp only [runDoc, hrun]
  have htake : (src ++ [34]).take ((src ++ [34]).length - (0 + 1)) = src := by
    simp
  simp [fini, htake, submitFieldEv, submitRowSt, Config.strictFiniOpt,
    Config.emptyIsNullOpt, defaultConfig]

/-- C5.  Strict versus lenient stray quotes: parsing the 13-byte input
quote, space, quote, quote, space, quote, space, quote, space, quote,
quote, space, quote (the fixture of test07) with Strict raises a
malformed-input Eparse error, while parsing it without Strict followed by
finish succeeds and yields exactly one field whose 9-byte content is
space, quote, space, quote, space, quote, space, quote, space (containing
the literal stray quotes) and one row event with terminator -1. -/
theorem strict_vs_lenient_stray_quotes :
    (runSingle (defaultConfig 1)
        [34, 32, 34, 34, 32, 34, 32, 34, 32, 34, 34, 32, 34]).err =
      some .eparse ∧
    runDoc (defaultConfig 0) [34, 32, 34, 34, 32, 34, 32, 34, 32, 34, 34, 32, 34] =
      ([.field (some [32, 34, 32, 34, 32, 34, 32, 34, 32]), .row (-1)], none) := by
  decide

/-- C6 counterexample: after the properly closed quoted field of the
three-byte input quote, letter a, quote, the parser is exactly in state
fieldMightHaveEnded (QuoteSeenInQuotedField) with the quoted flag set;
with StrictFini set, finish nevertheless succeeds, emitting the field and
the final row event, contradicting the claim that finish fails in that
state. -/
theorem strict_finish_fmhe_counterexample :
    (runSingle (defaultConfig 4) [34, 97, 34]).st.pstate = .fieldMightHaveEnded ∧
    (runSingle (defaultConfig 4) [34, 97, 34]).st.quoted = true ∧
    (defaultConfig 4).strictFiniOpt = true ∧
    (fini (defaultConfig 4) (runSingle (defaultConfig 4) [34, 97, 34]).st).err = none ∧
    (fini (defaultConfig 4) (runSingle (defaultConfig 4) [34, 97, 34]).st).evs =
      [.field (some [97]), .row (-1)] := by
  decide

/-- C6 (amended).  StrictFinish and finish: when the parser is in an open
quoted field (state fieldBegun with the quoted flag, the only truly
unterminated-quote state) and StrictFini is set, finish fails with Eparse
and emits nothing; without StrictFini, finish on the same state succeeds,
emitting the pending field's accumulated content followed by a row event
with terminator -1.  (In state fieldMightHaveEnded the pending quote is
treated as the closing quote and finish succeeds even under StrictFini.) -/
theorem strict_finish_quoted_field (cfg : Config) (s : PSt)
    (hp : s.pstate = .fieldBegun) (hq : s.quoted = true) :
    (cfg.strictFiniOpt = true →
       (fini cfg s).err = some .eparse ∧ (fini cfg s).evs = []) ∧
    (cfg.strictFiniOpt = false →
       (fini cfg s).err = none ∧
       (fini cfg s).evs = [.field (some s.entry), .row (-1)]) := by
  rcases s with ⟨ps, q, sp, en, st⟩
  simp only at hp hq
  subst hp
  subst hq
  constructor
  · intro hf
    simp [fini, hf]
  · intro hf
    simp [fini, hf, submitFieldEv, submitRowSt]

/-- Witness for strict_finish_quoted_field: in the open quoted field state
holding the single byte 97, finish fails under StrictFini and succeeds
without it, emitting the field and the row. -/
theorem strict_finish_quoted_field_witness :
    (fini (defaultConfig 4) ⟨.fieldBegun, true, 0, [97], none⟩).err = some .eparse ∧
    (fini (defaultConfig 0) ⟨.fieldBegun, true, 0, [97], none⟩).evs =
      [.field (some [97]), .row (-1)] :=
  ⟨((strict_finish_quoted_field (defaultConfig 4)
      ⟨.fieldBegun, true, 0, [97], none⟩ rfl rfl).1 (by decide)).1,
   ((strict_finish_quoted_field (defaultConfig 0)
      ⟨.fieldBegun, true, 0, [97], none⟩ rfl rfl).2 (by decide)).2⟩

/-- C7 counterexample: the four-byte input of four LF bytes, parsed without
ReportAllNewlines and finished, emits no events at all: none of the LF
bytes is preceded by a CR, yet no row event is produced, contradicting the
claim that every terminator byte outside a CRLF pair produces one
row-event. -/
theorem report_newlines_counterexample :
    (runDoc (defaultConfig 0) [10, 10, 10, 10]).1 = [] ∧
    (runDoc (defaultConfig 0) [10, 10, 10, 10]).1 ≠
      [.row 10, .row 10, .row 10, .row 10] := by
  decide

/-- C7 (amended).  Row-event cadence: with RepAllNl, every terminator byte
seen outside a quoted field produces its own row event, and empty rows
emit no field events (four LF bytes produce exactly four row events and
nothing else); without RepAllNl, a terminator byte arriving while the
current row has no begun field (state rowNotBegun — which covers the LF of
a CRLF pair and any standalone blank line) produces no event at all, while
a terminator ending a row with at least one completed or begun field
produces one row event.  The general last clause states the rowNotBegun
transition for LF under an arbitrary option byte. -/
theorem report_newlines_cadence :
    (runDoc (defaultConfig 2) [10, 10, 10, 10]).1 =
      [.row 10, .row 10, .row 10, .row 10] ∧
    (runDoc (defaultConfig 0) [10, 10, 10, 10]).1 = [] ∧
    (runDoc (defaultConfig 0) [97, 13, 10]).1 = [.field (some [97]), .row 13] ∧
    (runDoc (defaultConfig 2) [97, 13, 10]).1 =
      [.field (some [97]), .row 13, .row 10] ∧
    (∀ (opts : Nat) (s : PSt), s.pstate = .rowNotBegun →
       step (defaultConfig opts) s 10 =
         (if (defaultConfig opts).repAllNlOpt then ⟨submitRowSt s, [.row 10], none⟩
          else ⟨s, [], none⟩)) := by
  refine ⟨by decide, by decide, by decide, by decide, ?_⟩
  intro opts s hp
  rcases s with ⟨ps, q, sp, en, st⟩
  simp only at hp
  subst hp
  by_cases h : (defaultConfig opts).repAllNlOpt
  · simp [step, defaultConfig, defIsSpace, defIsTerm, h]
  · simp [step, defaultConfig, defIsSpace, defIsTerm, h]

/-- Witness for report_newlines_cadence: at a fresh parser, an LF byte
emits one row event with RepAllNl set and nothing without it. -/
theorem report_newlines_cadence_witness :
    step (defaultConfig 0) initSt 10 = ⟨initSt, [], none⟩ ∧
    step (defaultConfig 2) initSt 10 = ⟨submitRowSt initSt, [.row 10], none⟩ := by
  constructor
  · rw [report_newlines_cadence.2.2.2.2 0 initSt rfl]
    decide
  · rw [report_newlines_cadence.2.2.2.2 2 initSt rfl]
    decide

/-- C8 counterexample: parsing space, digit 1, comma without Strict emits a
first field whose content is the single byte 49 — the leading space is
skipped, not retroactively included, contradicting the claim that the
lenient field content includes the leading whitespace. -/
theorem leading_whitespace_counterexample :
    (runSingle (defaultConfig 0) [32, 49, 44]).evs = [.field (some [49])] ∧
    (runSingle (defaultConfig 0) [32, 49, 44]).evs ≠ [.field (some [32, 49])] := by
  decide

/-- C8 (amended).  Leading whitespace in the start-of-field states is
skipped unconditionally, whether or not Strict is set: with the default
configuration under any option byte, a space byte arriving while no field
has begun changes nothing except the consumed count, so it is never part
of the emitted field's data. -/
theorem leading_whitespace_skipped (opts : Nat) (s : PSt) (rest : List Nat)
    (h : s.pstate = .rowNotBegun ∨ s.pstate = .fieldNotBegun) :
    processBytes (defaultConfig opts) s (32 :: rest) =
      ⟨(processBytes (defaultConfig opts) s rest).st,
       (processBytes (defaultConfig opts) s rest).evs,
       (processBytes (defaultConfig opts) s rest).consumed + 1,
       (processBytes (defaultConfig opts) s rest).err⟩ := by
  have hstep : step (defaultConfig opts) s 32 = ⟨s, [], none⟩ := by
    rcases s with ⟨ps, q, sp, en, st⟩
    rcases h with hp | hp <;> simp only at hp <;> subst hp <;>
      simp [step, defaultConfig, defIsSpace]
  simp [processBytes, hstep]

/-- Witness for leading_whitespace_skipped: with Strict set, parsing
space, digit 1, comma from a fresh parser consumes three bytes and emits
the one-byte field 49. -/
theorem leading_whitespace_skipped_witness :
    processBytes (defaultConfig 1) initSt [32, 49, 44] =
      ⟨⟨.fieldNotBegun, false, 0, [], none⟩, [.field (some [49])], 3, none⟩ :=
  (leading_whitespace_skipped 1 initSt [49, 44] (Or.inl rfl)).trans (by decide)

/-- C9.  EmptyIsNull: parsing the two-byte input comma, comma with
EmptyIsNull set and finishing yields three field events each delivered
null, followed by the final row event; the same input without the flag
yields three present zero-length fields; and a quoted-empty field (two
quote bytes) is delivered zero-length non-null even when EmptyIsNull is
set. -/
theorem empty_is_null_fields :
    runDoc (defaultConfig 16) [44, 44] =
      ([.field none, .field none, .field none, .row (-1)], none) ∧
    runDoc (defaultConfig 0) [44, 44] =
      ([.field (some []), .field (some []), .field (some []), .row (-1)], none) ∧
    runDoc (defaultConfig 16) [34, 34] = ([.field (some []), .row (-1)], none) := by
  decide

/-- CsvParser::set_options (CsvParser.cpp lines 144-152): replaces the
engine's option byte with the fold of the given option list. -/
def set_options (cfg : Config) (l : List COpt) : Config :=
  { cfg with options := convert_options_to_c_flags l }

/-- Folding from an arbitrary accumulator ORs the accumulator onto the
fold from zero. -/
theorem convert_foldl_init (l : List COpt) : ∀ a : Nat,
    l.foldl (fun acc o => acc ||| o.val) a = a ||| convert_options_to_c_flags l := by
  induction l with
  | nil => intro a; simp [convert_options_to_c_flags]
  | cons o t ih =>
    intro a
    simp only [convert_options_to_c_flags, List.foldl_cons] at ih ⊢
    rw [ih, ih (0 ||| o.val), Nat.zero_or, Nat.or_assoc]

/-- The flag byte of a nonempty list is the head's value ORed with the
flag byte of the tail. -/
theorem convert_cons (o : COpt) (t : List COpt) :
    convert_options_to_c_flags (o :: t) = o.val ||| convert_options_to_c_flags t := by
  simp only [convert_options_to_c_flags, List.foldl_cons]
  rw [convert_foldl_init t (0 ||| o.val), Nat.zero_or]
  rfl

/-- The flag byte determined purely by which distinct options are present:
the OR of one indicator bit per option. -/
def flagsOf (l : List COpt) : Nat :=
  (if COpt.strict ∈ l then 1 else 0) |||
  (if COpt.repAllNl ∈ l then 2 else 0) |||
  (if COpt.strictFini ∈ l then 4 else 0) |||
  (if COpt.appendNull ∈ l then 8 else 0) |||
  (if COpt.emptyIsNull ∈ l then 16 else 0)

/-- The folded flag byte equals the membership-determined flag byte. -/
theorem convert_eq_flagsOf (l : List COpt) :
    convert_options_to_c_flags l = flagsOf l := by
  induction l with
  | nil => simp [convert_options_to_c_flags, flagsOf]
  | cons o t ih =>
    rw [convert_cons, ih]
    rcases o <;>
      by_cases h1 : COpt.strict ∈ t <;>
      by_cases h2 : COpt.repAllNl ∈ t <;>
      by_cases h3 : COpt.strictFini ∈ t <;>
      by_cases h4 : COpt.appendNull ∈ t <;>
      by_cases h5 : COpt.emptyIsNull ∈ t <;>
      simp only [flagsOf, List.mem_cons, h1, h2, h3, h4, h5, or_true, or_false,
        true_or, false_or, if_true, if_false, reduceCtorEq] <;>
      decide

/-- C10.  Option-flag folding: the flag byte handed to the engine by
set_options (and by the option-taking constructors, which call the same
fold) is the bitwise OR of the options' numeric values, accumulated head
first; an empty collection produces flag byte 0; the byte equals the OR of
one indicator bit per distinct option present, so it — and hence the
resulting configuration — depends only on the set of distinct options:
order and repetition have no effect. -/
theorem option_flag_folding :
    convert_options_to_c_flags [] = 0 ∧
    (∀ (o : COpt) (t : List COpt),
       convert_options_to_c_flags (o :: t) = o.val ||| convert_options_to_c_flags t) ∧
    (∀ l : List COpt, convert_options_to_c_flags l = flagsOf l) ∧
    (∀ l₂ l₂ₓ : List COpt, (∀ o, o ∈ l₂ ↔ o ∈ l₂ₓ) →
       convert_options_to_c_flags l₂ = convert_options_to_c_flags l₂ₓ) ∧
    (∀ (cfg : Config) (l₂ l₂ₓ : List COpt), (∀ o, o ∈ l₂ ↔ o ∈ l₂ₓ) →
       set_options cfg l₂ = set_options cfg l₂ₓ) := by
  have hmem : ∀ l₂ l₂ₓ : List COpt, (∀ o, o ∈ l₂ ↔ o ∈ l₂ₓ) →
      convert_options_to_c_flags l₂ = convert_options_to_c_flags l₂ₓ := by
    intro l₂ l₂ₓ h
    rw [convert_eq_flagsOf, convert_eq_flagsOf]
    simp only [flagsOf, h]
  refine ⟨rfl, convert_cons, convert_eq_flagsOf, hmem, ?_⟩
  intro cfg l₂ l₂ₓ h
  simp only [set_options, hmem l₂ l₂ₓ h]

/-- Witness for option_flag_folding: the list Strict, Strict, EmptyIsNull
and the list EmptyIsNull, Strict contain the same distinct options and
fold to the same flag byte 17. -/
theorem option_flag_folding_witness :
    convert_options_to_c_flags [COpt.strict, COpt.strict, COpt.emptyIsNull] =
      convert_options_to_c_flags [COpt.emptyIsNull, COpt.strict] ∧
    convert_options_to_c_flags [COpt.strict, COpt.strict, COpt.emptyIsNull] = 17 :=
  ⟨option_flag_folding.2.2.2.1 [COpt.strict, COpt.strict, COpt.emptyIsNull]
      [COpt.emptyIsNull, COpt.strict]
      (by intro o; rcases o <;> decide),
   by decide⟩

end CsvSpec
